import Mathlib

/-
Verification of the reth backfill / canonical-state-notification core.

Shallow embedding of:
  - crates/exex/exex/src/backfill/job.rs
      (BackfillJob, BackfillJob::next, BackfillJob::execute_range,
       SingleBlockBackfillJob, SingleBlockBackfillJob::next,
       SingleBlockBackfillJob::execute_block)
  - crates/chain-state/src/test_utils.rs
      (TestCanonStateSubscriptions: add_next_commit, add_next_reorg,
       subscribe_to_canonical_state)
  - crates/primitives-traits/src/transaction/signed.rs
      (SignedTransaction::recover_signer / recover_signer_unchecked /
       recover_signer_unchecked_with_buf for PooledTransaction)

The Provider / Executor capabilities (history_by_block_number,
sealed_block_with_senders, execute_one, size_hint, take_bundle) are
external collaborators of the code under verification; they are kept
abstract as a record of functions that the theorems quantify over.
Machine integers (u64 block numbers, gas) are modelled as Nat: the
source never exercises wrap-around on them, and saturating_sub on u64
coincides with Nat subtraction.
-/

/-- A sealed block with senders, reduced to the fields the backfill job
reads: its number and its gas usage. -/
structure Block where
  number : Nat
  gas_used : Nat
deriving Repr, DecidableEq

/-- Errors surfaced by the backfill job. The source wraps provider errors
with BlockExecutionError::other, turns a missing block into
ProviderError::HeaderNotFound, and propagates executor errors as they
are; `ε` is the collaborators' own error payload type. -/
inductive BErr (ε : Type) where
  | provider (e : ε)
  | headerNotFound (n : Nat)
  | exec (e : ε)
deriving Repr, DecidableEq

deriving instance DecidableEq for Except

/-- The external collaborators of the backfill job: the Provider
capability (history_by_block_number, sealed_block_with_senders /
recovered_block) and the Executor capability (execute_one on a rolling
state of type `σ`, size_hint, into_state().take_bundle()).  `elapsed n`
is the wall-clock oracle: the value of batch_start.elapsed() observed at
the threshold check that follows the execution of block `n`. -/
structure Env (σ ρ β ε : Type) where
  history : Nat → Except ε σ
  fetch : Nat → Except ε (Option Block)
  execute_one : σ → Block → Except ε (ρ × σ)
  size_hint : σ → Nat
  take_bundle : σ → β
  elapsed : Nat → Nat

/-- Modelled from the spec: ExecutionStageThresholds (reth_stages_api) is
not part of the source fragment; the spec describes it as recognizing
the options max_blocks_per_batch, max_diff_size, max_cumulative_gas and
max_batch_duration, any one of which triggering ("reaching a configured
maximum") closes the batch. -/
structure ExecutionStageThresholds where
  max_blocks : Option Nat
  max_changes : Option Nat
  max_cumulative_gas : Option Nat
  max_duration : Option Nat
deriving Repr, DecidableEq

/-- An optional threshold is reached when it is configured and the
running counter is at least its value. -/
def reached (v : Nat) : Option Nat → Bool
  | none => false
  | some m => m ≤ v

/-- Modelled from the spec: the batch is closed when ANY configured
threshold is reached by its running counter. -/
def ExecutionStageThresholds.is_end_of_batch (t : ExecutionStageThresholds)
    (blocks_processed changes_processed cumulative_gas elapsed : Nat) : Bool :=
  reached blocks_processed t.max_blocks ||
  reached changes_processed t.max_changes ||
  reached cumulative_gas t.max_cumulative_gas ||
  reached elapsed t.max_duration

/-- ExecutionOutcome::from_blocks: the first block number of the batch,
the bundle taken from the executor's final state, and the per-block
execution results. -/
structure ExecutionOutcome (ρ β : Type) where
  first_block : Nat
  bundle : β
  results : List ρ
deriving Repr, DecidableEq

/-- Chain::new(blocks, outcome, None): the executed batch. -/
structure Chain (ρ β : Type) where
  blocks : List Block
  outcome : ExecutionOutcome ρ β
deriving Repr, DecidableEq

/-- BackfillJob: collaborators, thresholds and the remaining inclusive
range lo..=hi (empty when hi < lo). prune_modes and stream_parallelism
are never read by next/execute_range and are omitted. -/
structure BackfillJob (σ ρ β ε : Type) where
  env : Env σ ρ β ε
  thresholds : ExecutionStageThresholds
  lo : Nat
  hi : Nat

/-- The inner `for block_number in self.range.clone()` loop of
execute_range, iterating over the listed block numbers: fetch the block
(provider error / HeaderNotFound), add its gas, execute it, push result
then block, then break if thresholds.is_end_of_batch fires on
(block_number - range.start, executor.size_hint(), cumulative_gas,
batch_start.elapsed()).  Returns the accumulated blocks, results, final
executor state and cumulative gas. -/
def execLoop (env : Env σ ρ β ε) (t : ExecutionStageThresholds) (rangeStart : Nat) :
    List Nat → σ → Nat → Except (BErr ε) (List Block × List ρ × σ × Nat)
  | [], s, gas => .ok ([], [], s, gas)
  | n :: rest, s, gas =>
    match env.fetch n with
    | .error e => .error (.provider e)
    | .ok none => .error (.headerNotFound n)
    | .ok (some blk) =>
      let gas1 := gas + blk.gas_used
      match env.execute_one s blk with
      | .error e => .error (.exec e)
      | .ok (r, s1) =>
        if t.is_end_of_batch (n - rangeStart) (env.size_hint s1) gas1 (env.elapsed n) then
          .ok ([blk], [r], s1, gas1)
        else
          match execLoop env t rangeStart rest s1 gas1 with
          | .error e => .error e
          | .ok (bs, rs, s2, g2) => .ok (blk :: bs, r :: rs, s2, g2)

/-- The block numbers a RangeInclusive lo..=hi iterates over. -/
def rangeList (lo hi : Nat) : List Nat :=
  List.range' lo (hi + 1 - lo)

/-- BackfillJob::execute_range.  Materialize the state view at
range.start().saturating_sub(1), run the loop, then read the first and
last accumulated block; the source's expect("blocks should not be
empty") panic is modelled as the outer `none`.  On success the remaining
range's start becomes last_block_number + 1; on error the job is
returned unchanged (the source only mutates self.range on the success
path). -/
def execute_range (j : BackfillJob σ ρ β ε) :
    Option (Except (BErr ε) (Chain ρ β) × BackfillJob σ ρ β ε) :=
  match j.env.history (j.lo - 1) with
  | .error e => some (.error (.provider e), j)
  | .ok s0 =>
    match execLoop j.env j.thresholds j.lo (rangeList j.lo j.hi) s0 0 with
    | .error e => some (.error e, j)
    | .ok (blocks, results, sfin, _gas) =>
      match blocks.head?, blocks.getLast? with
      | some b0, some bl =>
        some (.ok { blocks := blocks,
                    outcome := { first_block := b0.number,
                                 bundle := j.env.take_bundle sfin,
                                 results := results } },
              { j with lo := bl.number + 1 })
      | _, _ => none

/-- BackfillJob::next (the Iterator impl): None when the range is empty,
otherwise Some(execute_range()).  The outer `none` propagates the
modelled panic; the inner `none` is the iterator's exhaustion signal. -/
def BackfillJob.next (j : BackfillJob σ ρ β ε) :
    Option (Option (Except (BErr ε) (Chain ρ β)) × BackfillJob σ ρ β ε) :=
  if j.hi < j.lo then some (none, j)
  else
    match execute_range j with
    | none => none
    | some (r, j1) => some (some r, j1)

/-- Drive the BackfillJob iterator: collect the items of up to `fuel`
calls to next, stopping at the first None, and return them together with
the job's final state. -/
def runJob (fuel : Nat) (j : BackfillJob σ ρ β ε) :
    Option (List (Except (BErr ε) (Chain ρ β)) × BackfillJob σ ρ β ε) :=
  match fuel with
  | 0 => some ([], j)
  | fuel + 1 =>
    match j.next with
    | none => none
    | some (none, j1) => some ([], j1)
    | some (some r, j1) =>
      match runJob fuel j1 with
      | none => none
      | some (l, jf) => some (r :: l, jf)

/-- SingleBlockBackfillJob: collaborators and the remaining inclusive
range lo..=hi.  stream_parallelism is never read by next/execute_block
and is omitted. -/
structure SingleBlockBackfillJob (σ ρ β ε : Type) where
  env : Env σ ρ β ε
  lo : Nat
  hi : Nat

/-- SingleBlockBackfillJob::execute_block: fetch the recovered block
first, then materialize the state view at block_number.saturating_sub(1),
then run executor.execute on it.  Executor::execute is execute_one
followed by into_state: the output pairs the per-block result with the
bundle taken from the post-execution state. -/
def execute_block (j : SingleBlockBackfillJob σ ρ β ε) (block_number : Nat) :
    Except (BErr ε) (Block × ρ × β) :=
  match j.env.fetch block_number with
  | .error e => .error (.provider e)
  | .ok none => .error (.headerNotFound block_number)
  | .ok (some blk) =>
    match j.env.history (block_number - 1) with
    | .error e => .error (.provider e)
    | .ok s0 =>
      match j.env.execute_one s0 blk with
      | .error e => .error (.exec e)
      | .ok (r, s1) => .ok (blk, r, j.env.take_bundle s1)

/-- SingleBlockBackfillJob::next (the Iterator impl):
self.range.next().map(|n| self.execute_block(n)).  RangeInclusive::next
advances the range past its first element before execute_block runs, so
the range moves forward whether or not execution succeeds. -/
def SingleBlockBackfillJob.next (j : SingleBlockBackfillJob σ ρ β ε) :
    Option (Except (BErr ε) (Block × ρ × β)) × SingleBlockBackfillJob σ ρ β ε :=
  if j.hi < j.lo then (none, j)
  else (some (execute_block j j.lo), { j with lo := j.lo + 1 })

/-- Drive the SingleBlockBackfillJob iterator: the items of up to `fuel`
calls to next, stopping at the first None, and the job's final state. -/
def runSingle (fuel : Nat) (j : SingleBlockBackfillJob σ ρ β ε) :
    List (Except (BErr ε) (Block × ρ × β)) × SingleBlockBackfillJob σ ρ β ε :=
  match fuel with
  | 0 => ([], j)
  | fuel + 1 =>
    match j.next with
    | (none, j1) => ([], j1)
    | (some r, j1) =>
      match runSingle fuel j1 with
      | (l, jf) => (r :: l, jf)

/-- From<BackfillJob> for SingleBlockBackfillJob (into_single_blocks):
keeps executor, provider and range, drops the batching thresholds. -/
def into_single_blocks (j : BackfillJob σ ρ β ε) : SingleBlockBackfillJob σ ρ β ε :=
  { env := j.env, lo := j.lo, hi := j.hi }

/-- CanonStateNotification: Commit carries the new chain, Reorg the old
and new chains.  The chain payload type `α` stays abstract (the hub
clones whole Arc payloads and never inspects them). -/
inductive CanonStateNotification (α : Type) where
  | commit (new : α)
  | reorg (old new : α)
deriving Repr, DecidableEq

/-- One broadcast channel of the test hub, seen from the sender half:
whether the receiver half is still alive, and the notifications queued
for the receiver.  tokio broadcast's send fails exactly when no receiver
exists; a successful send appends the event to the receiver's queue. -/
structure Channel (α : Type) where
  alive : Bool
  queue : List (CanonStateNotification α)
deriving Repr, DecidableEq

/-- TestCanonStateSubscriptions: the registry of sender halves behind
the Mutex. -/
structure TestCanonStateSubscriptions (α : Type) where
  canon_notif_tx : List (Channel α)
deriving Repr, DecidableEq

/-- A sender's send(event): Ok exactly when the receiver is alive, in
which case the event is appended to the receiver's queue. -/
def sendEvent (c : Channel α) (ev : CanonStateNotification α) : Bool × Channel α :=
  if c.alive then (true, { c with queue := c.queue ++ [ev] }) else (false, c)

/-- The shared body of add_next_commit / add_next_reorg:
self.canon_notif_tx.lock().retain(|tx| tx.send(event.clone()).is_ok()) —
every registered sender is tried and exactly those whose send succeeded
are kept.  The operation returns the updated hub and never an error. -/
def publish (h : TestCanonStateSubscriptions α) (ev : CanonStateNotification α) :
    TestCanonStateSubscriptions α :=
  { canon_notif_tx :=
      ((h.canon_notif_tx.map fun c => sendEvent c ev).filter fun p => p.1).map fun p => p.2 }

/-- TestCanonStateSubscriptions::add_next_commit. -/
def add_next_commit (h : TestCanonStateSubscriptions α) (new : α) :
    TestCanonStateSubscriptions α :=
  publish h (.commit new)

/-- TestCanonStateSubscriptions::add_next_reorg. -/
def add_next_reorg (h : TestCanonStateSubscriptions α) (old new : α) :
    TestCanonStateSubscriptions α :=
  publish h (.reorg old new)

/-- CanonStateSubscriptions::subscribe_to_canonical_state for the test
hub: create a fresh channel, push its sender half into the registry, and
hand the receiver half (here: the index of the new channel) to the
caller. -/
def subscribe_to_canonical_state (h : TestCanonStateSubscriptions α) :
    TestCanonStateSubscriptions α × Nat :=
  ({ canon_notif_tx := h.canon_notif_tx ++ [{ alive := true, queue := [] }] },
   h.canon_notif_tx.length)

/-- Dropping a receiver: the channel at the given index (if any) loses
its receiver; later sends to it fail. -/
def dropReceiver (h : TestCanonStateSubscriptions α) (i : Nat) :
    TestCanonStateSubscriptions α :=
  { canon_notif_tx :=
      h.canon_notif_tx.mapIdx fun k c => if k = i then { c with alive := false } else c }

/-- Modelled from the spec: the secp256k1 recovery capability
(reth primitives crypto module, outside the source fragment).  `raw` is
ECDSA public-key recovery from a signature and a 32-byte signing hash,
`low_s` the canonical low-s test on a signature, `keccak` the keccak256
hash of a byte string; signatures, hashes and addresses stay abstract. -/
structure CryptoEnv (Sig Hash Addr : Type) where
  raw : Sig → Hash → Option Addr
  low_s : Sig → Bool
  keccak : List Nat → Hash

/-- Modelled from the spec: crypto::secp256k1::recover_signer — the
checked path fails (InvalidSignature) unless the signature satisfies the
low-s constraint, and otherwise recovers exactly as the unchecked
path. -/
def recover_signer_raw (W : CryptoEnv Sig Hash Addr) (sig : Sig) (hash : Hash) :
    Option Addr :=
  if W.low_s sig then W.raw sig hash else none

/-- Modelled from the spec: crypto::secp256k1::recover_signer_unchecked —
recovery with the low-s check omitted. -/
def recover_signer_unchecked_raw (W : CryptoEnv Sig Hash Addr) (sig : Sig) (hash : Hash) :
    Option Addr :=
  W.raw sig hash

/-- A pooled transaction, reduced to what the recovery paths read: its
signature and its signing encoding (what encode_for_signing appends to
the buffer; also the preimage of signature_hash). -/
structure Tx (Sig : Type) where
  sig : Sig
  enc : List Nat

/-- SignedTransaction::recover_signer for PooledTransaction:
recover_signer(self.signature(), self.signature_hash()), where
signature_hash is keccak256 of the fresh signing encoding. -/
def Tx.recover_signer (W : CryptoEnv Sig Hash Addr) (tx : Tx Sig) : Option Addr :=
  recover_signer_raw W tx.sig (W.keccak tx.enc)

/-- SignedTransaction::recover_signer_unchecked_with_buf for
PooledTransaction: encode_for_signing APPENDS the signing encoding to
the caller's buffer, then the signature hash is keccak256 of the whole
buffer. -/
def Tx.recover_signer_unchecked_with_buf (W : CryptoEnv Sig Hash Addr)
    (tx : Tx Sig) (buf : List Nat) : Option Addr :=
  recover_signer_unchecked_raw W tx.sig (W.keccak (buf ++ tx.enc))

/-- SignedTransaction::recover_signer_unchecked: the buffered path on a
fresh empty buffer (Vec::new()). -/
def Tx.recover_signer_unchecked (W : CryptoEnv Sig Hash Addr) (tx : Tx Sig) :
    Option Addr :=
  tx.recover_signer_unchecked_with_buf W []

/-- Read a unit batch as the (block, result, bundle) triple the single
block job emits; not defined for batches that are not unit. -/
def readUnit (c : Chain ρ β) : Option (Block × ρ × β) :=
  match c.blocks, c.outcome.results with
  | [b], [r] => some (b, r, c.outcome.bundle)
  | _, _ => none

/-- The batch pattern execute_range produces under
max_blocks_per_batch = 1 on a range of the given length: two blocks per
batch (the threshold argument is block_number - range.start, which is 1,
not 2, after the second block), with a final single-block batch when the
length is odd. -/
def pairBatches (a : Nat) : Nat → List (List Nat)
  | 0 => []
  | 1 => [[a]]
  | n + 2 => [a, a + 1] :: pairBatches (a + 2) n

/-- A concrete all-successful collaborator instance, used to exercise
the backfill theorems on explicit inputs. -/
def envN : Env Nat Nat Nat Nat where
  history := fun _ => .ok 0
  fetch := fun n => .ok (some { number := n, gas_used := 7 })
  execute_one := fun s b => .ok (b.number, s + 1)
  size_hint := fun s => s
  take_bundle := fun s => s
  elapsed := fun _ => 0

/-- A collaborator instance whose block fetch always fails with a
provider error. -/
def envF : Env Nat Nat Nat Nat :=
  { envN with fetch := fun _ => .error 5 }

/-- A concrete crypto instance: signatures are numbers, hashes and
addresses are byte lists, the hash function is the identity (injective),
and low-s holds for even signatures. -/
def cryptoN : CryptoEnv Nat (List Nat) (List Nat) where
  raw := fun s h => some (s :: h)
  low_s := fun s => s % 2 = 0
  keccak := fun l => l

/-
Helper lemmas.
-/

lemma execLoop_cons (env : Env σ ρ β ε) (t : ExecutionStageThresholds) (lo n : Nat)
    (rest : List Nat) (s : σ) (gas : Nat) (blk : Block) (r : ρ) (s1 : σ)
    (hf : env.fetch n = .ok (some blk)) (he : env.execute_one s blk = .ok (r, s1)) :
    execLoop env t lo (n :: rest) s gas =
      if t.is_end_of_batch (n - lo) (env.size_hint s1) (gas + blk.gas_used) (env.elapsed n) then
        .ok ([blk], [r], s1, gas + blk.gas_used)
      else
        match execLoop env t lo rest s1 (gas + blk.gas_used) with
        | .error e => .error e
        | .ok (bs, rs, s2, g2) => .ok (blk :: bs, r :: rs, s2, g2) := by
  simp only [execLoop, hf, he]

lemma execLoop_ok_shape (env : Env σ ρ β ε) (t : ExecutionStageThresholds) (lo : Nat)
    (hexec : ∀ s b, ∃ r s1, env.execute_one s b = .ok (r, s1)) :
    ∀ (k n : Nat) (s : σ) (gas : Nat),
      (∀ m, n ≤ m → m < n + k → ∃ blk, env.fetch m = .ok (some blk) ∧ blk.number = m) →
      ∃ bs rs s2 g2, execLoop env t lo (List.range' n k) s gas = .ok (bs, rs, s2, g2) ∧
        bs.map Block.number = List.range' n bs.length ∧
        rs.length = bs.length ∧ bs.length ≤ k ∧ (0 < k → 0 < bs.length) := by
  intro k
  induction k with
  | zero =>
    intro n s gas _
    exact ⟨[], [], s, gas, rfl, by simp, rfl, Nat.le_refl 0, by omega⟩
  | succ k ih =>
    intro n s gas hfetch
    obtain ⟨blk, hf, hnum⟩ := hfetch n (Nat.le_refl n) (by omega)
    obtain ⟨r, s1, he⟩ := hexec s blk
    rw [List.range'_succ n k 1, execLoop_cons env t lo n _ s gas blk r s1 hf he]
    by_cases hb : t.is_end_of_batch (n - lo) (env.size_hint s1) (gas + blk.gas_used)
        (env.elapsed n) = true
    · refine ⟨[blk], [r], s1, gas + blk.gas_used, ?_, ?_, rfl, by simp, fun _ => by simp⟩
      · rw [if_pos hb]
      · simp [hnum, List.range']
    · obtain ⟨bs, rs, s2, g2, hLoop, hmap, hlen, hle, _⟩ :=
        ih (n + 1) s1 (gas + blk.gas_used) (fun m h1 h2 => hfetch m (by omega) (by omega))
      refine ⟨blk :: bs, r :: rs, s2, g2, ?_, ?_, by simp [hlen], by simpa using hle,
        fun _ => by simp⟩
      · rw [if_neg hb, hLoop]
      · simp only [List.map_cons, hnum, List.length_cons]
        rw [List.range'_succ n bs.length 1, hmap]

lemma range'_getLast? (s n : Nat) (h : 1 ≤ n) :
    (List.range' s n).getLast? = some (s + n - 1) := by
  cases n with
  | zero => omega
  | succ m =>
    have hc : List.range' s (m + 1) = List.range' s m ++ [s + m] := by
      simpa using @List.range'_concat 1 s m
    rw [hc, List.getLast?_append]
    simp

lemma range'_head? (s n : Nat) (h : 1 ≤ n) :
    (List.range' s n).head? = some s := by
  cases n with
  | zero => omega
  | succ m => rw [List.range'_succ s m 1]; rfl

lemma execute_range_ok (j : BackfillJob σ ρ β ε)
    (hlo : j.lo ≤ j.hi)
    (hhist : ∃ s0, j.env.history (j.lo - 1) = .ok s0)
    (hexec : ∀ s b, ∃ r s1, j.env.execute_one s b = .ok (r, s1))
    (hfetch : ∀ m, j.lo ≤ m → m ≤ j.hi →
      ∃ blk, j.env.fetch m = .ok (some blk) ∧ blk.number = m) :
    ∃ c len, execute_range j = some (.ok c, { j with lo := j.lo + len }) ∧
      c.blocks.map Block.number = List.range' j.lo len ∧
      1 ≤ len ∧ j.lo + len ≤ j.hi + 1 ∧
      c.outcome.results.length = len ∧ c.outcome.first_block = j.lo := by
  obtain ⟨s0, hs0⟩ := hhist
  obtain ⟨bs, rs, s2, g2, hLoop, hmap, hlen, hle, hpos⟩ :=
    execLoop_ok_shape j.env j.thresholds j.lo hexec (j.hi + 1 - j.lo) j.lo s0 0
      (fun m h1 h2 => hfetch m h1 (by omega))
  have hbs : 0 < bs.length := hpos (by omega)
  have hmaphead : (bs.map Block.number).head? = some j.lo := by
    rw [hmap]; exact range'_head? j.lo bs.length hbs
  have hmaplast : (bs.map Block.number).getLast? = some (j.lo + bs.length - 1) := by
    rw [hmap]; exact range'_getLast? j.lo bs.length hbs
  rw [List.head?_map] at hmaphead
  rw [List.getLast?_map] at hmaplast
  obtain ⟨b0, hb0, hb0n⟩ : ∃ b0, bs.head? = some b0 ∧ b0.number = j.lo := by
    cases hh : bs.head? with
    | none => rw [hh] at hmaphead; simp at hmaphead
    | some b0 =>
      rw [hh] at hmaphead
      simp at hmaphead
      exact ⟨b0, rfl, hmaphead⟩
  obtain ⟨bl, hbl, hbln⟩ : ∃ bl, bs.getLast? = some bl ∧ bl.number = j.lo + bs.length - 1 := by
    cases hh : bs.getLast? with
    | none => rw [hh] at hmaplast; simp at hmaplast
    | some bl =>
      rw [hh] at hmaplast
      simp at hmaplast
      exact ⟨bl, rfl, hmaplast⟩
  refine ⟨{ blocks := bs,
            outcome := { first_block := b0.number,
                         bundle := j.env.take_bundle s2,
                         results := rs } }, bs.length, ?_, hmap, hbs, by omega, hlen, hb0n⟩
  have hlo1 : bl.number + 1 = j.lo + bs.length := by omega
  simp only [execute_range, rangeList, hs0, hLoop, hb0, hbl, hlo1]

lemma execute_range_err (j : BackfillJob σ ρ β ε) (e : BErr ε) (j1 : BackfillJob σ ρ β ε)
    (h : execute_range j = some (.error e, j1)) : j1 = j := by
  simp only [execute_range] at h
  cases hh : j.env.history (j.lo - 1) with
  | error e0 =>
    rw [hh] at h
    simp only [Option.some.injEq, Prod.mk.injEq] at h
    exact h.2.symm
  | ok s0 =>
    rw [hh] at h
    simp only at h
    cases hl : execLoop j.env j.thresholds j.lo (rangeList j.lo j.hi) s0 0 with
    | error e1 =>
      rw [hl] at h
      simp only [Option.some.injEq, Prod.mk.injEq] at h
      exact h.2.symm
    | ok q =>
      obtain ⟨bs, rs, s2, g2⟩ := q
      rw [hl] at h
      simp only at h
      cases hb0 : bs.head? with
      | none => rw [hb0] at h; cases hbl : bs.getLast? <;> rw [hbl] at h <;> simp at h
      | some b0 =>
        rw [hb0] at h
        cases hbl : bs.getLast? with
        | none => rw [hbl] at h; simp at h
        | some bl => rw [hbl] at h; simp at h

lemma execute_range_ok_advance (j : BackfillJob σ ρ β ε) (c : Chain ρ β)
    (j1 : BackfillJob σ ρ β ε) (h : execute_range j = some (.ok c, j1)) :
    ∃ bl, c.blocks.getLast? = some bl ∧ j1 = { j with lo := bl.number + 1 } := by
  simp only [execute_range] at h
  cases hh : j.env.history (j.lo - 1) with
  | error e0 => rw [hh] at h; simp at h
  | ok s0 =>
    rw [hh] at h
    simp only at h
    cases hl : execLoop j.env j.thresholds j.lo (rangeList j.lo j.hi) s0 0 with
    | error e1 => rw [hl] at h; simp at h
    | ok q =>
      obtain ⟨bs, rs, s2, g2⟩ := q
      rw [hl] at h
      simp only at h
      cases hb0 : bs.head? with
      | none => rw [hb0] at h; cases hbl : bs.getLast? <;> rw [hbl] at h <;> simp at h
      | some b0 =>
        rw [hb0] at h
        cases hbl : bs.getLast? with
        | none => rw [hbl] at h; simp at h
        | some bl =>
          rw [hbl] at h
          simp only [Option.some.injEq, Prod.mk.injEq, Except.ok.injEq] at h
          refine ⟨bl, ?_, h.2.symm⟩
          rw [← h.1]
          exact hbl

lemma runJob_covers (env : Env σ ρ β ε) (t : ExecutionStageThresholds)
    (hexec : ∀ s b, ∃ r s1, env.execute_one s b = .ok (r, s1))
    (hhist : ∀ n, ∃ s0, env.history n = .ok s0) :
    ∀ (fuel lo hi : Nat), lo ≤ hi + 1 → hi + 1 - lo ≤ fuel →
      (∀ m, lo ≤ m → m ≤ hi → ∃ blk, env.fetch m = .ok (some blk) ∧ blk.number = m) →
      ∃ (cs : List (Chain ρ β)),
        runJob fuel { env := env, thresholds := t, lo := lo, hi := hi } =
          some (cs.map Except.ok,
                { env := env, thresholds := t, lo := hi + 1, hi := hi }) ∧
        (cs.map fun c => c.blocks.map Block.number).flatten = List.range' lo (hi + 1 - lo) ∧
        (∀ c ∈ cs, c.blocks ≠ []) := by
  intro fuel
  induction fuel with
  | zero =>
    intro lo hi hlo hf hfetch
    have hz : hi + 1 - lo = 0 := by omega
    have hlo1 : lo = hi + 1 := by omega
    subst hlo1
    exact ⟨[], by simp [runJob], by simp [hz], by simp⟩
  | succ fuel ih =>
    intro lo hi hlo hf hfetch
    by_cases hcase : hi + 1 ≤ lo
    · have hlo1 : lo = hi + 1 := by omega
      subst hlo1
      refine ⟨[], ?_, by simp, by simp⟩
      simp [runJob, BackfillJob.next]
    · have hle : lo ≤ hi := by omega
      obtain ⟨c, len, hexr, hmap, h1len, hupper, _, _⟩ :=
        execute_range_ok { env := env, thresholds := t, lo := lo, hi := hi } hle
          (hhist (lo - 1)) hexec hfetch
      dsimp only at hexr hmap h1len hupper
      obtain ⟨cs, hrun, hflat, hne⟩ :=
        ih (lo + len) hi (by omega) (by omega) (fun m h1 h2 => hfetch m (by omega) h2)
      refine ⟨c :: cs, ?_, ?_, ?_⟩
      · simp only [runJob, BackfillJob.next, if_neg (by omega : ¬ hi < lo), hexr]
        rw [hrun]
        simp
      · simp only [List.map_cons, List.flatten_cons, hmap, hflat]
        have hs : hi + 1 - lo = (hi + 1 - (lo + len)) + len := by omega
        rw [hs]
        exact List.range'_append_1 lo len (hi + 1 - (lo + len))
      · intro cx hcx
        cases hcx with
        | head =>
          intro hnil
          rw [hnil] at hmap
          have : (List.range' lo len).length = 0 := by rw [← hmap]; simp
          simp at this
          omega
        | tail _ hmem => exact hne cx hmem

lemma execLoop_ok_ne_nil (env : Env σ ρ β ε) (t : ExecutionStageThresholds)
    (lo n k : Nat) (s : σ) (gas : Nat) (bs : List Block) (rs : List ρ) (s2 : σ) (g2 : Nat)
    (hk : 0 < k) (h : execLoop env t lo (List.range' n k) s gas = .ok (bs, rs, s2, g2)) :
    bs ≠ [] := by
  cases k with
  | zero => omega
  | succ k =>
    rw [List.range'_succ n k 1] at h
    simp only [execLoop] at h
    cases hf : env.fetch n with
    | error e => rw [hf] at h; exact absurd h (by simp)
    | ok ob =>
      cases ob with
      | none => rw [hf] at h; exact absurd h (by simp)
      | some blk =>
        rw [hf] at h
        simp only at h
        cases he : env.execute_one s blk with
        | error e => rw [he] at h; exact absurd h (by simp)
        | ok p =>
          obtain ⟨r, s1⟩ := p
          rw [he] at h
          simp only at h
          by_cases hb : t.is_end_of_batch (n - lo) (env.size_hint s1) (gas + blk.gas_used)
              (env.elapsed n) = true
          · rw [if_pos hb] at h
            cases h
            simp
          · rw [if_neg hb] at h
            cases hrec : execLoop env t lo (List.range' (n + 1) k) s1 (gas + blk.gas_used) with
            | error e => rw [hrec] at h; exact absurd h (by simp)
            | ok q =>
              obtain ⟨bs1, rs1, s3, g3⟩ := q
              rw [hrec] at h
              simp only at h
              cases h
              simp

lemma execute_range_eq (j : BackfillJob σ ρ β ε) (s0 : σ) (bs : List Block) (rs : List ρ)
    (s2 : σ) (g2 len : Nat)
    (hs0 : j.env.history (j.lo - 1) = .ok s0)
    (hl : execLoop j.env j.thresholds j.lo (rangeList j.lo j.hi) s0 0 = .ok (bs, rs, s2, g2))
    (hmap : bs.map Block.number = List.range' j.lo len) (hlen : 1 ≤ len) :
    execute_range j = some (.ok (Chain.mk bs
        (ExecutionOutcome.mk j.lo (j.env.take_bundle s2) rs)),
      { j with lo := j.lo + len }) := by
  have hbs : 0 < bs.length := by
    have := congrArg List.length hmap
    simp at this
    omega
  have hmaphead : (bs.map Block.number).head? = some j.lo := by
    rw [hmap]; exact range'_head? j.lo len hlen
  have hmaplast : (bs.map Block.number).getLast? = some (j.lo + len - 1) := by
    rw [hmap]; exact range'_getLast? j.lo len hlen
  rw [List.head?_map] at hmaphead
  rw [List.getLast?_map] at hmaplast
  obtain ⟨b0, hb0, hb0n⟩ : ∃ b0, bs.head? = some b0 ∧ b0.number = j.lo := by
    cases hh : bs.head? with
    | none => rw [hh] at hmaphead; simp at hmaphead
    | some b0 =>
      rw [hh] at hmaphead
      simp at hmaphead
      exact ⟨b0, rfl, hmaphead⟩
  obtain ⟨bl, hbl, hbln⟩ : ∃ bl, bs.getLast? = some bl ∧ bl.number = j.lo + len - 1 := by
    cases hh : bs.getLast? with
    | none => rw [hh] at hmaplast; simp at hmaplast
    | some bl =>
      rw [hh] at hmaplast
      simp at hmaplast
      exact ⟨bl, rfl, hmaplast⟩
  have hlo1 : bl.number + 1 = j.lo + len := by omega
  simp only [execute_range, hs0, hl, hb0, hbl, hlo1, hb0n]

lemma range'_two (lo : Nat) : List.range' lo 2 = [lo, lo + 1] := by
  rw [List.range'_succ lo 1 1, List.range'_succ (lo + 1) 0 1]
  rfl

lemma execLoop_t0 (env : Env σ ρ β ε) (lo k : Nat) (s : σ) (gas : Nat) (hk : 1 ≤ k)
    (blk : Block) (r : ρ) (s1 : σ)
    (hf : env.fetch lo = .ok (some blk)) (he : env.execute_one s blk = .ok (r, s1)) :
    execLoop env ⟨some 0, none, none, none⟩ lo (List.range' lo k) s gas =
      .ok ([blk], [r], s1, gas + blk.gas_used) := by
  cases k with
  | zero => omega
  | succ m =>
    rw [List.range'_succ lo m 1, execLoop_cons env _ lo lo _ s gas blk r s1 hf he]
    rw [if_pos (by simp [ExecutionStageThresholds.is_end_of_batch, reached])]

lemma execLoop_t1_one (env : Env σ ρ β ε) (lo : Nat) (s : σ) (gas : Nat)
    (blk : Block) (r : ρ) (s1 : σ)
    (hf : env.fetch lo = .ok (some blk)) (he : env.execute_one s blk = .ok (r, s1)) :
    execLoop env ⟨some 1, none, none, none⟩ lo (List.range' lo 1) s gas =
      .ok ([blk], [r], s1, gas + blk.gas_used) := by
  rw [List.range'_succ lo 0 1, execLoop_cons env _ lo lo _ s gas blk r s1 hf he]
  rw [if_neg (by simp [ExecutionStageThresholds.is_end_of_batch, reached])]
  rfl

lemma execLoop_t1_two (env : Env σ ρ β ε) (lo k : Nat) (s : σ) (gas : Nat) (hk : 2 ≤ k)
    (blk0 blk1 : Block) (r0 r1 : ρ) (s1 s2 : σ)
    (hf0 : env.fetch lo = .ok (some blk0)) (he0 : env.execute_one s blk0 = .ok (r0, s1))
    (hf1 : env.fetch (lo + 1) = .ok (some blk1))
    (he1 : env.execute_one s1 blk1 = .ok (r1, s2)) :
    execLoop env ⟨some 1, none, none, none⟩ lo (List.range' lo k) s gas =
      .ok ([blk0, blk1], [r0, r1], s2, gas + blk0.gas_used + blk1.gas_used) := by
  obtain ⟨m, rfl⟩ : ∃ m, k = m + 2 := ⟨k - 2, by omega⟩
  rw [show m + 2 = (m + 1) + 1 from rfl, List.range'_succ lo (m + 1) 1,
    execLoop_cons env _ lo lo _ s gas blk0 r0 s1 hf0 he0]
  rw [if_neg (by simp [ExecutionStageThresholds.is_end_of_batch, reached])]
  rw [List.range'_succ (lo + 1) m 1,
    execLoop_cons env _ lo (lo + 1) _ s1 (gas + blk0.gas_used) blk1 r1 s2 hf1 he1]
  rw [if_pos (by simp [ExecutionStageThresholds.is_end_of_batch, reached])]

lemma pairBatches_length : ∀ (n a : Nat), (pairBatches a n).length = (n + 1) / 2 := by
  intro n
  induction n using Nat.strong_induction_on with
  | _ n ih =>
    intro a
    match n with
    | 0 => simp [pairBatches]
    | 1 => simp [pairBatches]
    | m + 2 =>
      have := ih m (by omega) (a + 2)
      simp only [pairBatches, List.length_cons, this]
      omega

lemma runJob_t1 (env : Env σ ρ β ε)
    (hexec : ∀ s b, ∃ r s1, env.execute_one s b = .ok (r, s1))
    (hhist : ∀ n, ∃ s0, env.history n = .ok s0) :
    ∀ (fuel lo hi : Nat), lo ≤ hi + 1 → hi + 1 - lo ≤ fuel →
      (∀ m, lo ≤ m → m ≤ hi → ∃ blk, env.fetch m = .ok (some blk) ∧ blk.number = m) →
      ∃ cs : List (Chain ρ β),
        runJob fuel
            { env := env, thresholds := ⟨some 1, none, none, none⟩, lo := lo, hi := hi } =
          some (cs.map Except.ok,
            { env := env, thresholds := ⟨some 1, none, none, none⟩, lo := hi + 1, hi := hi }) ∧
        cs.map (fun c => c.blocks.map Block.number) = pairBatches lo (hi + 1 - lo) := by
  intro fuel
  induction fuel with
  | zero =>
    intro lo hi hlo hf hfetch
    have hlo1 : lo = hi + 1 := by omega
    subst hlo1
    exact ⟨[], by simp [runJob], by simp [Nat.sub_self, pairBatches]⟩
  | succ fuel ih =>
    intro lo hi hlo hf hfetch
    by_cases hcase : hi + 1 ≤ lo
    · have hlo1 : lo = hi + 1 := by omega
      subst hlo1
      refine ⟨[], ?_, by simp [Nat.sub_self, pairBatches]⟩
      simp [runJob, BackfillJob.next]
    · have hle : lo ≤ hi := by omega
      obtain ⟨s0, hs0⟩ := hhist (lo - 1)
      obtain ⟨blk0, hf0, hn0⟩ := hfetch lo (Nat.le_refl lo) hle
      obtain ⟨r0, s1, he0⟩ := hexec s0 blk0
      by_cases h2 : lo + 1 ≤ hi
      · obtain ⟨blk1, hf1, hn1⟩ := hfetch (lo + 1) (by omega) h2
        obtain ⟨r1, s2, he1⟩ := hexec s1 blk1
        have hloop := execLoop_t1_two env lo (hi + 1 - lo) s0 0 (by omega)
          blk0 blk1 r0 r1 s1 s2 hf0 he0 hf1 he1
        have hexr := execute_range_eq
          { env := env, thresholds := ⟨some 1, none, none, none⟩, lo := lo, hi := hi }
          s0 [blk0, blk1] [r0, r1] s2 _ 2 hs0 (by simpa [rangeList] using hloop)
          (by simp [hn0, hn1, range'_two]) (by omega)
        dsimp only at hexr
        obtain ⟨cs, hrun, hpair⟩ :=
          ih (lo + 2) hi (by omega) (by omega) (fun m h1 h2 => hfetch m (by omega) h2)
        refine ⟨Chain.mk [blk0, blk1]
          (ExecutionOutcome.mk lo (env.take_bundle s2) [r0, r1]) :: cs, ?_, ?_⟩
        · simp only [runJob, BackfillJob.next, if_neg (by omega : ¬ hi < lo), hexr]
          rw [hrun]
          simp
        · obtain ⟨m, hm⟩ : ∃ m, hi + 1 - lo = m + 2 := ⟨hi + 1 - lo - 2, by omega⟩
          rw [hm]
          simp only [pairBatches, List.map_cons]
          rw [hpair, show hi + 1 - (lo + 2) = m from by omega]
          simp [hn0, hn1]
      · have hone : hi + 1 - lo = 1 := by omega
        have hloop := execLoop_t1_one env lo s0 0 blk0 r0 s1 hf0 he0
        have hexr := execute_range_eq
          { env := env, thresholds := ⟨some 1, none, none, none⟩, lo := lo, hi := hi }
          s0 [blk0] [r0] s1 _ 1 hs0
          (by rw [rangeList, hone] at *; simpa using hloop)
          (by simp [hn0, List.range'_succ lo 0 1]) (by omega)
        dsimp only at hexr
        obtain ⟨cs, hrun, hpair⟩ :=
          ih (lo + 1) hi (by omega) (by omega) (fun m h1 h2 => hfetch m (by omega) h2)
        have hcs : cs = [] := by
          have hz : hi + 1 - (lo + 1) = 0 := by omega
          rw [hz] at hpair
          simp only [pairBatches] at hpair
          cases cs with
          | nil => rfl
          | cons c cs => simp at hpair
        subst hcs
        refine ⟨[Chain.mk [blk0] (ExecutionOutcome.mk lo (env.take_bundle s1) [r0])], ?_, ?_⟩
        · simp only [runJob, BackfillJob.next, if_neg (by omega : ¬ hi < lo), hexr]
          rw [show lo + 1 = hi + 1 from by omega] at hrun ⊢
          rw [hrun]
          simp
        · rw [hone]
          simp only [pairBatches, List.map_cons, List.map_nil]
          simp [hn0]

lemma run_t0_eq_single (env : Env σ ρ β ε)
    (hexec : ∀ s b, ∃ r s1, env.execute_one s b = .ok (r, s1))
    (hhist : ∀ n, ∃ s0, env.history n = .ok s0) :
    ∀ (fuel lo hi : Nat), lo ≤ hi + 1 → hi + 1 - lo ≤ fuel →
      (∀ m, lo ≤ m → m ≤ hi → ∃ blk, env.fetch m = .ok (some blk) ∧ blk.number = m) →
      ∃ cs : List (Chain ρ β),
        runJob fuel
            { env := env, thresholds := ⟨some 0, none, none, none⟩, lo := lo, hi := hi } =
          some (cs.map Except.ok,
            { env := env, thresholds := ⟨some 0, none, none, none⟩, lo := hi + 1, hi := hi }) ∧
        cs.map readUnit =
          ((runSingle fuel { env := env, lo := lo, hi := hi }).1).map Except.toOption ∧
        (runSingle fuel { env := env, lo := lo, hi := hi }).2 =
          { env := env, lo := hi + 1, hi := hi } := by
  intro fuel
  induction fuel with
  | zero =>
    intro lo hi hlo hf hfetch
    have hlo1 : lo = hi + 1 := by omega
    subst hlo1
    exact ⟨[], by simp [runJob], by simp [runSingle], by simp [runSingle]⟩
  | succ fuel ih =>
    intro lo hi hlo hf hfetch
    by_cases hcase : hi + 1 ≤ lo
    · have hlo1 : lo = hi + 1 := by omega
      subst hlo1
      refine ⟨[], ?_, ?_, ?_⟩
      · simp [runJob, BackfillJob.next]
      · simp [runSingle, SingleBlockBackfillJob.next]
      · simp [runSingle, SingleBlockBackfillJob.next]
    · have hle : lo ≤ hi := by omega
      obtain ⟨s0, hs0⟩ := hhist (lo - 1)
      obtain ⟨blk, hf0, hn0⟩ := hfetch lo (Nat.le_refl lo) hle
      obtain ⟨r, s1, he0⟩ := hexec s0 blk
      have hloop := execLoop_t0 env lo (hi + 1 - lo) s0 0 (by omega) blk r s1 hf0 he0
      have hexr := execute_range_eq
        { env := env, thresholds := ⟨some 0, none, none, none⟩, lo := lo, hi := hi }
        s0 [blk] [r] s1 _ 1 hs0 (by simpa [rangeList] using hloop)
        (by simp [hn0, List.range'_succ lo 0 1]) (by omega)
      dsimp only at hexr
      obtain ⟨cs, hrun, hread, hsfin⟩ :=
        ih (lo + 1) hi (by omega) (by omega) (fun m h1 h2 => hfetch m (by omega) h2)
      have hsingle : SingleBlockBackfillJob.next { env := env, lo := lo, hi := hi } =
          (some (.ok (blk, r, env.take_bundle s1)),
           { env := env, lo := lo + 1, hi := hi }) := by
        simp only [SingleBlockBackfillJob.next, if_neg (by omega : ¬ hi < lo)]
        simp only [execute_block, hf0, hs0, he0]
      refine ⟨Chain.mk [blk] (ExecutionOutcome.mk lo (env.take_bundle s1) [r]) :: cs,
        ?_, ?_, ?_⟩
      · simp only [runJob, BackfillJob.next, if_neg (by omega : ¬ hi < lo), hexr]
        rw [hrun]
        simp
      · simp only [runSingle, hsingle]
        rcases hrs : runSingle fuel { env := env, lo := lo + 1, hi := hi } with ⟨l, jf⟩
        rw [hrs] at hread
        simp only [List.map_cons, hread]
        simp [readUnit, Except.toOption]
      · simp only [runSingle, hsingle]
        rcases hrs : runSingle fuel { env := env, lo := lo + 1, hi := hi } with ⟨l, jf⟩
        rw [hrs] at hsfin
        simpa using hsfin

lemma publishList (l : List (Channel α)) (ev : CanonStateNotification α) :
    ((l.map fun c => sendEvent c ev).filter fun p => p.1).map (fun p => p.2) =
      (l.filter fun c => c.alive).map (fun c => { c with queue := c.queue ++ [ev] }) := by
  induction l with
  | nil => rfl
  | cons c cs ih =>
    simp only [sendEvent] at ih ⊢
    by_cases hc : c.alive <;> simp [hc, ih]

lemma publish_retains (h : TestCanonStateSubscriptions α) (ev : CanonStateNotification α) :
    (publish h ev).canon_notif_tx =
      (h.canon_notif_tx.filter fun c => c.alive).map
        (fun c => { c with queue := c.queue ++ [ev] }) := by
  cases h with
  | mk l => simp only [publish, publishList]

/-
Claim theorems.
-/

/-- C1: for every non-empty block range [a,b] over a provider that
serves each block of the range and an executor that succeeds on every
block (the claim speaks of a sequence of successful batches), driving
BackfillJob::next to exhaustion yields batches, all Ok, whose
concatenated block numbers are exactly a, a+1, ..., b — every number
covered exactly once, ascending, no gaps, no overlaps; after every
successful batch the remaining range restarts at the last executed block
number plus one; and once exhausted (start = b+1) next answers None, not
an error, leaving the job unchanged. -/
theorem c1_backfill_covers_range (env : Env σ ρ β ε) (t : ExecutionStageThresholds)
    (a b fuel : Nat) (hab : a ≤ b) (hfuel : b + 1 - a ≤ fuel)
    (hhist : ∀ n, ∃ s0, env.history n = .ok s0)
    (hexec : ∀ s blk, ∃ r s1, env.execute_one s blk = .ok (r, s1))
    (hfetch : ∀ m, a ≤ m → m ≤ b → ∃ blk, env.fetch m = .ok (some blk) ∧ blk.number = m) :
    ∃ cs : List (Chain ρ β),
      runJob fuel { env := env, thresholds := t, lo := a, hi := b } =
        some (cs.map Except.ok, { env := env, thresholds := t, lo := b + 1, hi := b }) ∧
      (cs.map fun c => c.blocks.map Block.number).flatten = List.range' a (b + 1 - a) ∧
      cs ≠ [] ∧ (∀ c ∈ cs, c.blocks ≠ []) ∧
      BackfillJob.next { env := env, thresholds := t, lo := b + 1, hi := b } =
        some (none, { env := env, thresholds := t, lo := b + 1, hi := b }) ∧
      (∀ (j j1 : BackfillJob σ ρ β ε) (c : Chain ρ β),
        execute_range j = some (.ok c, j1) →
        ∃ bl, c.blocks.getLast? = some bl ∧ j1 = { j with lo := bl.number + 1 }) := by
  obtain ⟨cs, hrun, hflat, hne⟩ :=
    runJob_covers env t hexec hhist fuel a b (by omega) hfuel hfetch
  refine ⟨cs, hrun, hflat, ?_, hne, ?_, ?_⟩
  · intro hnil
    rw [hnil] at hflat
    have hlen := congrArg List.length hflat
    simp at hlen
    omega
  · simp [BackfillJob.next]
  · intro j j1 c hok
    exact execute_range_ok_advance j c j1 hok

/-- Witness for C1: the concrete all-successful instance over the range
0..=2 with empty thresholds, hypotheses discharged explicitly. -/
theorem c1_backfill_covers_range_witness :
    (∀ n, ∃ s0, envN.history n = .ok s0) ∧
    (∀ s blk, ∃ r s1, envN.execute_one s blk = .ok (r, s1)) ∧
    (∀ m, 0 ≤ m → m ≤ 2 → ∃ blk, envN.fetch m = .ok (some blk) ∧ blk.number = m) ∧
    (∃ cs : List (Chain Nat Nat),
      runJob 3 { env := envN, thresholds := ⟨none, none, none, none⟩, lo := 0, hi := 2 } =
        some (cs.map Except.ok,
          { env := envN, thresholds := ⟨none, none, none, none⟩, lo := 3, hi := 2 }) ∧
      (cs.map fun c => c.blocks.map Block.number).flatten = List.range' 0 (2 + 1 - 0) ∧
      cs ≠ [] ∧ (∀ c ∈ cs, c.blocks ≠ []) ∧
      BackfillJob.next { env := envN, thresholds := ⟨none, none, none, none⟩, lo := 3, hi := 2 } =
        some (none, { env := envN, thresholds := ⟨none, none, none, none⟩, lo := 3, hi := 2 }) ∧
      (∀ (j j1 : BackfillJob Nat Nat Nat Nat) (c : Chain Nat Nat),
        execute_range j = some (.ok c, j1) →
        ∃ bl, c.blocks.getLast? = some bl ∧ j1 = { j with lo := bl.number + 1 })) :=
  ⟨fun _ => ⟨0, rfl⟩, fun s blk => ⟨blk.number, s + 1, rfl⟩,
   fun m _ _ => ⟨{ number := m, gas_used := 7 }, rfl, rfl⟩,
   c1_backfill_covers_range envN ⟨none, none, none, none⟩ 0 2 3 (by omega) (by omega)
     (fun _ => ⟨0, rfl⟩) (fun s blk => ⟨blk.number, s + 1, rfl⟩)
     (fun m _ _ => ⟨{ number := m, gas_used := 7 }, rfl, rfl⟩)⟩

/-- C2 counterexample: over the range 1..=2 with max_blocks_per_batch =
1 and an all-successful provider/executor, the job yields ONE batch
holding the two blocks 1 and 2 — not b-a+1 = 2 unit batches.  The
source hands is_end_of_batch the value block_number - range.start (the
number of blocks completed BEFORE the current one), so the threshold
fires only after the second block of a batch. -/
theorem c2_counterexample :
    (runJob 4 { env := envN, thresholds := ⟨some 1, none, none, none⟩,
                lo := 1, hi := 2 }).map
        (fun p => p.1.map fun r => r.map fun c => c.blocks.map Block.number) =
      some [Except.ok [1, 2]] ∧
    ([Except.ok [1, 2]] : List (Except (BErr Nat) (List Nat))).length = 1 ∧
    (1 : Nat) ≠ 2 := by
  refine ⟨by decide, by decide, by decide⟩

/-- C2 corrected: with max_blocks_per_batch = 1 over a range [a,b] in
which every fetch and execution succeeds, the job produces
⌈(b-a+1)/2⌉ batches; every batch carries two consecutive blocks except
a final single-block batch when b-a+1 is odd (pairBatches).  The batch
boundary is one block late because the loop passes
block_number - range.start to is_end_of_batch. -/
theorem c2_unit_threshold_gives_pairs (env : Env σ ρ β ε) (a b fuel : Nat)
    (hab : a ≤ b) (hfuel : b + 1 - a ≤ fuel)
    (hhist : ∀ n, ∃ s0, env.history n = .ok s0)
    (hexec : ∀ s blk, ∃ r s1, env.execute_one s blk = .ok (r, s1))
    (hfetch : ∀ m, a ≤ m → m ≤ b → ∃ blk, env.fetch m = .ok (some blk) ∧ blk.number = m) :
    ∃ cs : List (Chain ρ β),
      runJob fuel
          { env := env, thresholds := ⟨some 1, none, none, none⟩, lo := a, hi := b } =
        some (cs.map Except.ok,
          { env := env, thresholds := ⟨some 1, none, none, none⟩, lo := b + 1, hi := b }) ∧
      cs.map (fun c => c.blocks.map Block.number) = pairBatches a (b + 1 - a) ∧
      cs.length = (b + 1 - a + 1) / 2 := by
  obtain ⟨cs, h1, h2⟩ := runJob_t1 env hexec hhist fuel a b (by omega) hfuel hfetch
  refine ⟨cs, h1, h2, ?_⟩
  have hlen := congrArg List.length h2
  simpa [pairBatches_length] using hlen

/-- Witness for the corrected C2: the concrete instance over 1..=2
produces the single pair batch [[1,2]]. -/
theorem c2_unit_threshold_gives_pairs_witness :
    (1 : Nat) ≤ 2 ∧ (2 + 1 - 1 : Nat) ≤ 4 ∧
    (∃ cs : List (Chain Nat Nat),
      runJob 4 { env := envN, thresholds := ⟨some 1, none, none, none⟩,
                 lo := 1, hi := 2 } =
        some (cs.map Except.ok,
          { env := envN, thresholds := ⟨some 1, none, none, none⟩, lo := 3, hi := 2 }) ∧
      cs.map (fun c => c.blocks.map Block.number) = pairBatches 1 (2 + 1 - 1) ∧
      cs.length = (2 + 1 - 1 + 1) / 2) :=
  ⟨by omega, by omega,
   c2_unit_threshold_gives_pairs envN 1 2 4 (by omega) (by omega)
     (fun _ => ⟨0, rfl⟩) (fun s blk => ⟨blk.number, s + 1, rfl⟩)
     (fun m _ _ => ⟨{ number := m, gas_used := 7 }, rfl, rfl⟩)⟩

/-- C3 counterexample: over 1..=2 with the same all-successful provider
and executor, SingleBlockBackfillJob yields two items while the
BackfillJob with max_blocks_per_batch = 1 yields a single two-block
batch, so its batches are not unit batches and the claimed one-to-one
pairing cannot hold. -/
theorem c3_counterexample :
    (runJob 4 { env := envN, thresholds := ⟨some 1, none, none, none⟩,
                lo := 1, hi := 2 }).map (fun p => p.1.length) = some 1 ∧
    (runSingle 4 { env := envN, lo := 1, hi := 2 }).1.length = 2 ∧
    (1 : Nat) ≠ 2 := by
  refine ⟨by decide, by decide, by decide⟩

/-- C3 corrected: the unit-batch configuration of the source is
max_blocks_per_batch = 0 (the threshold counter is the index of the
block within its batch), not 1.  With it, and with every fetch and
execution succeeding, reading each unit batch as its (block, result,
bundle) triple reproduces the SingleBlockBackfillJob iterator's outputs
exactly, in order, and both iterators end with the same exhausted
range. -/
theorem c3_unit_batches_match_single (env : Env σ ρ β ε) (a b fuel : Nat)
    (hab : a ≤ b) (hfuel : b + 1 - a ≤ fuel)
    (hhist : ∀ n, ∃ s0, env.history n = .ok s0)
    (hexec : ∀ s blk, ∃ r s1, env.execute_one s blk = .ok (r, s1))
    (hfetch : ∀ m, a ≤ m → m ≤ b → ∃ blk, env.fetch m = .ok (some blk) ∧ blk.number = m) :
    ∃ cs : List (Chain ρ β),
      runJob fuel
          { env := env, thresholds := ⟨some 0, none, none, none⟩, lo := a, hi := b } =
        some (cs.map Except.ok,
          { env := env, thresholds := ⟨some 0, none, none, none⟩, lo := b + 1, hi := b }) ∧
      cs.map readUnit =
        ((runSingle fuel { env := env, lo := a, hi := b }).1).map Except.toOption ∧
      (runSingle fuel { env := env, lo := a, hi := b }).2 =
        { env := env, lo := b + 1, hi := b } :=
  run_t0_eq_single env hexec hhist fuel a b (by omega) hfuel hfetch

/-- Witness for the corrected C3 at the concrete instance over 1..=2. -/
theorem c3_unit_batches_match_single_witness :
    (1 : Nat) ≤ 2 ∧ (2 + 1 - 1 : Nat) ≤ 4 ∧
    (∃ cs : List (Chain Nat Nat),
      runJob 4 { env := envN, thresholds := ⟨some 0, none, none, none⟩,
                 lo := 1, hi := 2 } =
        some (cs.map Except.ok,
          { env := envN, thresholds := ⟨some 0, none, none, none⟩, lo := 3, hi := 2 }) ∧
      cs.map readUnit =
        ((runSingle 4 { env := envN, lo := 1, hi := 2 }).1).map Except.toOption ∧
      (runSingle 4 { env := envN, lo := 1, hi := 2 }).2 = { env := envN, lo := 3, hi := 2 }) :=
  ⟨by omega, by omega,
   c3_unit_batches_match_single envN 1 2 4 (by omega) (by omega)
     (fun _ => ⟨0, rfl⟩) (fun s blk => ⟨blk.number, s + 1, rfl⟩)
     (fun m _ _ => ⟨{ number := m, gas_used := 7 }, rfl, rfl⟩)⟩

/-- C4: called with a non-empty remaining range, execute_range never
reaches the expect("blocks should not be empty") panic (the modelled
`none` outcome), and every successful return carries at least one
block: the loop body runs at least once before any threshold check. -/
theorem c4_batch_nonempty (j : BackfillJob σ ρ β ε) (h : j.lo ≤ j.hi) :
    execute_range j ≠ none ∧
    ∀ (c : Chain ρ β) (j1 : BackfillJob σ ρ β ε),
      execute_range j = some (.ok c, j1) → c.blocks ≠ [] := by
  have hne : ∀ (s0 : σ) (bs : List Block) (rs : List ρ) (s2 : σ) (g2 : Nat),
      execLoop j.env j.thresholds j.lo (rangeList j.lo j.hi) s0 0 = .ok (bs, rs, s2, g2) →
      bs ≠ [] := by
    intro s0 bs rs s2 g2 hl
    exact execLoop_ok_ne_nil j.env j.thresholds j.lo j.lo (j.hi + 1 - j.lo) s0 0 bs rs s2 g2
      (by omega) (by simpa [rangeList] using hl)
  constructor
  · intro hnone
    simp only [execute_range] at hnone
    cases hh : j.env.history (j.lo - 1) with
    | error e0 => rw [hh] at hnone; simp at hnone
    | ok s0 =>
      rw [hh] at hnone
      simp only at hnone
      cases hl : execLoop j.env j.thresholds j.lo (rangeList j.lo j.hi) s0 0 with
      | error e1 => rw [hl] at hnone; simp at hnone
      | ok q =>
        obtain ⟨bs, rs, s2, g2⟩ := q
        rw [hl] at hnone
        simp only at hnone
        have hbs := hne s0 bs rs s2 g2 hl
        cases bs with
        | nil => exact hbs rfl
        | cons b0 tl =>
          have hlast : (b0 :: tl).getLast?.isSome :=
            List.getLast?_isSome.mpr (by simp)
          cases hgl : (b0 :: tl).getLast? with
          | none => rw [hgl] at hlast; simp at hlast
          | some bl => rw [hgl] at hnone; simp at hnone
  · intro c j1 hok
    obtain ⟨bl, hbl, _⟩ := execute_range_ok_advance j c j1 hok
    intro hnil
    rw [hnil] at hbl
    simp at hbl

/-- Witness for C4: the concrete all-successful instance on the
singleton range 1..=1. -/
theorem c4_batch_nonempty_witness :
    ({ env := envN, thresholds := ⟨none, none, none, none⟩, lo := 1, hi := 1 } :
      BackfillJob Nat Nat Nat Nat).lo ≤ 1 ∧
    (execute_range ({ env := envN, thresholds := ⟨none, none, none, none⟩, lo := 1, hi := 1 } :
        BackfillJob Nat Nat Nat Nat) ≠ none ∧
     ∀ (c : Chain Nat Nat) (j1 : BackfillJob Nat Nat Nat Nat),
       execute_range ({ env := envN, thresholds := ⟨none, none, none, none⟩, lo := 1, hi := 1 } :
           BackfillJob Nat Nat Nat Nat) = some (.ok c, j1) → c.blocks ≠ []) :=
  ⟨by decide,
   c4_batch_nonempty { env := envN, thresholds := ⟨none, none, none, none⟩, lo := 1, hi := 1 }
     (by decide)⟩

/-- C5: whenever execute_range returns an error — provider failure while
materializing state or fetching, a missing block, or a block execution
failure — the item is that error (no Chain is surfaced) and the job
returned alongside it is the unchanged one: the remaining range still
starts at the same block, so none of the failed batch's block numbers
are consumed. -/
theorem c5_error_leaves_range (j : BackfillJob σ ρ β ε) (e : BErr ε)
    (j1 : BackfillJob σ ρ β ε) (h : execute_range j = some (.error e, j1)) : j1 = j :=
  execute_range_err j e j1 h

/-- Witness for C5: the instance whose fetch always fails errors on the
range 1..=1 and hands back the very same job. -/
theorem c5_error_leaves_range_witness :
    execute_range ({ env := envF, thresholds := ⟨none, none, none, none⟩, lo := 1, hi := 1 } :
        BackfillJob Nat Nat Nat Nat) =
      some (.error (.provider 5),
        { env := envF, thresholds := ⟨none, none, none, none⟩, lo := 1, hi := 1 }) ∧
    ({ env := envF, thresholds := ⟨none, none, none, none⟩, lo := 1, hi := 1 } :
      BackfillJob Nat Nat Nat Nat) =
      { env := envF, thresholds := ⟨none, none, none, none⟩, lo := 1, hi := 1 } :=
  ⟨rfl,
   c5_error_leaves_range
     { env := envF, thresholds := ⟨none, none, none, none⟩, lo := 1, hi := 1 }
     (.provider 5)
     { env := envF, thresholds := ⟨none, none, none, none⟩, lo := 1, hi := 1 } rfl⟩

/-- C6: publishing a Commit (add_next_commit) or a Reorg
(add_next_reorg) tries to send to every sender in the registry and
retains exactly those whose send succeeded: afterwards the registry is
precisely the alive channels, each with the event appended to its
queue; a sender whose receiver was dropped is removed by this publish
and, no longer being registered, is never addressed by later publishes;
the operation is total (it returns the updated hub, never an error). -/
theorem c6_publish_delivers_and_prunes (h : TestCanonStateSubscriptions α)
    (newc oldc : α) :
    (add_next_commit h newc).canon_notif_tx =
      (h.canon_notif_tx.filter fun c => c.alive).map
        (fun c => { c with queue := c.queue ++ [CanonStateNotification.commit newc] }) ∧
    (∀ c ∈ (add_next_commit h newc).canon_notif_tx, c.alive = true) ∧
    (add_next_reorg h oldc newc).canon_notif_tx =
      (h.canon_notif_tx.filter fun c => c.alive).map
        (fun c => { c with queue := c.queue ++ [CanonStateNotification.reorg oldc newc] }) ∧
    (∀ c ∈ (add_next_reorg h oldc newc).canon_notif_tx, c.alive = true) := by
  refine ⟨publish_retains h _, ?_, publish_retains h _, ?_⟩
  · intro c hc
    rw [add_next_commit, publish_retains] at hc
    obtain ⟨c0, hc0, rfl⟩ := List.mem_map.mp hc
    exact (List.mem_filter.mp hc0).2
  · intro c hc
    rw [add_next_reorg, publish_retains] at hc
    obtain ⟨c0, hc0, rfl⟩ := List.mem_map.mp hc
    exact (List.mem_filter.mp hc0).2

/-- C6 witness: a registry holding one live and one dead channel; the
publish delivers to the live one, prunes the dead one, and everything
left is alive. -/
theorem c6_publish_delivers_and_prunes_witness :
    (add_next_commit
        ({ canon_notif_tx := [{ alive := true, queue := [] },
                              { alive := false, queue := [] }] } :
          TestCanonStateSubscriptions Nat) 3).canon_notif_tx =
      [{ alive := true, queue := [CanonStateNotification.commit 3] }] ∧
    (∀ c ∈ (add_next_commit
        ({ canon_notif_tx := [{ alive := true, queue := [] },
                              { alive := false, queue := [] }] } :
          TestCanonStateSubscriptions Nat) 3).canon_notif_tx, c.alive = true) :=
  ⟨by decide,
   (c6_publish_delivers_and_prunes
     ({ canon_notif_tx := [{ alive := true, queue := [] },
                           { alive := false, queue := [] }] } :
       TestCanonStateSubscriptions Nat) 3 4).2.1⟩

/-- C7: a subscriber observes exactly the notifications published
after its subscribe call: from the empty hub — subscribe S1, publish
Commit A, subscribe S2, publish Commit B — S1's queue reads
[Commit A, Commit B] while S2's queue reads [Commit B] only; the
returned receiver handles are the registry indices 0 and 1. -/
theorem c7_no_replay_scenario (A B : α) :
    (add_next_commit
        (subscribe_to_canonical_state
          (add_next_commit
            (subscribe_to_canonical_state
              ({ canon_notif_tx := [] } : TestCanonStateSubscriptions α)).1 A)).1
        B).canon_notif_tx =
      [{ alive := true, queue := [CanonStateNotification.commit A,
                                  CanonStateNotification.commit B] },
       { alive := true, queue := [CanonStateNotification.commit B] }] ∧
    (subscribe_to_canonical_state
      ({ canon_notif_tx := [] } : TestCanonStateSubscriptions α)).2 = 0 ∧
    (subscribe_to_canonical_state
      (add_next_commit
        (subscribe_to_canonical_state
          ({ canon_notif_tx := [] } : TestCanonStateSubscriptions α)).1 A)).2 = 1 := by
  refine ⟨?_, rfl, rfl⟩
  simp [subscribe_to_canonical_state, add_next_commit, publish, sendEvent]

/-- C8: the checked recovery path is a subset-acceptance of the
unchecked one.  When the signature satisfies the low-s constraint, the
checked path computes exactly what the unchecked path computes (so on a
validly signed transaction it succeeds with the same address); and on
any transaction, whenever the checked path accepts, the unchecked path
accepts with the same address.  The secp256k1 layer is modelled from
the spec: checked recovery gates on low-s and otherwise performs the
same raw recovery over the same signing hash. -/
theorem c8_checked_subset_unchecked (W : CryptoEnv Sig Hash Addr) (tx : Tx Sig)
    (hl : W.low_s tx.sig = true) :
    Tx.recover_signer W tx = Tx.recover_signer_unchecked W tx ∧
    (∀ (tx2 : Tx Sig) (a : Addr),
      Tx.recover_signer W tx2 = some a → Tx.recover_signer_unchecked W tx2 = some a) := by
  constructor
  · simp [Tx.recover_signer, Tx.recover_signer_unchecked,
      Tx.recover_signer_unchecked_with_buf, recover_signer_raw,
      recover_signer_unchecked_raw, hl]
  · intro tx2 a ha
    by_cases h2 : W.low_s tx2.sig = true
    · simpa [Tx.recover_signer, Tx.recover_signer_unchecked,
        Tx.recover_signer_unchecked_with_buf, recover_signer_raw,
        recover_signer_unchecked_raw, h2] using ha
    · simp [Tx.recover_signer, recover_signer_raw, h2] at ha

/-- C8 witness: the concrete crypto instance on an even (low-s)
signature. -/
theorem c8_checked_subset_unchecked_witness :
    cryptoN.low_s 2 = true ∧
    (Tx.recover_signer cryptoN (Tx.mk 2 [9]) =
      Tx.recover_signer_unchecked cryptoN (Tx.mk 2 [9]) ∧
     (∀ (tx2 : Tx Nat) (a : List Nat),
       Tx.recover_signer cryptoN tx2 = some a →
       Tx.recover_signer_unchecked cryptoN tx2 = some a)) :=
  ⟨by decide, c8_checked_subset_unchecked cryptoN (Tx.mk 2 [9]) (by decide)⟩

/-- C9: recover_signer_unchecked_with_buf appends the transaction's
signing encoding to the supplied buffer and hashes the whole buffer:
its result is raw recovery on keccak(buf ++ enc); with an empty buffer
it coincides with recover_signer_unchecked; a non-empty buffer changes
the computed signing hash (keccak being collision-free); and — for a
recovery capability that distinguishes signing hashes — the buffered
result equals the fresh-buffer result exactly when the buffer was
empty at the call. -/
theorem c9_buffer_is_hashed_whole (W : CryptoEnv Sig Hash Addr) (tx : Tx Sig)
    (buf : List Nat) (hinj : Function.Injective W.keccak)
    (hraw : ∀ h1 h2 : Hash, W.raw tx.sig h1 = W.raw tx.sig h2 → h1 = h2) :
    Tx.recover_signer_unchecked_with_buf W tx buf =
      W.raw tx.sig (W.keccak (buf ++ tx.enc)) ∧
    (buf = [] → Tx.recover_signer_unchecked_with_buf W tx buf =
      Tx.recover_signer_unchecked W tx) ∧
    (buf ≠ [] → W.keccak (buf ++ tx.enc) ≠ W.keccak tx.enc) ∧
    (Tx.recover_signer_unchecked_with_buf W tx buf = Tx.recover_signer_unchecked W tx ↔
      buf = []) := by
  have happ : ∀ b : List Nat, b ++ tx.enc = tx.enc → b = [] := by
    intro b hb
    have := congrArg List.length hb
    simp at this
    exact this
  refine ⟨rfl, ?_, ?_, ?_, ?_⟩
  · intro hb
    subst hb
    rfl
  · intro hb hk
    exact hb (happ buf (hinj hk))
  · intro heq
    have hk : W.keccak (buf ++ tx.enc) = W.keccak ([] ++ tx.enc) := hraw _ _ heq
    simpa using happ buf (hinj (by simpa using hk))
  · intro hb
    subst hb
    rfl

/-- C9 witness: the identity-hash crypto instance, a non-empty buffer,
and a recovery function injective in the hash. -/
theorem c9_buffer_is_hashed_whole_witness :
    Function.Injective cryptoN.keccak ∧
    (∀ h1 h2 : List Nat, cryptoN.raw 3 h1 = cryptoN.raw 3 h2 → h1 = h2) ∧
    (Tx.recover_signer_unchecked_with_buf cryptoN (Tx.mk 3 [1]) [2] =
      cryptoN.raw 3 (cryptoN.keccak ([2] ++ [1])) ∧
     (([2] : List Nat) = [] →
      Tx.recover_signer_unchecked_with_buf cryptoN (Tx.mk 3 [1]) [2] =
        Tx.recover_signer_unchecked cryptoN (Tx.mk 3 [1])) ∧
     (([2] : List Nat) ≠ [] →
      cryptoN.keccak ([2] ++ [1]) ≠ cryptoN.keccak [1]) ∧
     (Tx.recover_signer_unchecked_with_buf cryptoN (Tx.mk 3 [1]) [2] =
        Tx.recover_signer_unchecked cryptoN (Tx.mk 3 [1]) ↔ ([2] : List Nat) = [])) :=
  ⟨fun a b hh => hh, fun h1 h2 hh => by simpa [cryptoN] using hh,
   c9_buffer_is_hashed_whole cryptoN (Tx.mk 3 [1]) [2] (fun a b hh => hh)
     (fun h1 h2 hh => by simpa [cryptoN] using hh)⟩

/-- C10: SingleBlockBackfillJob::next draws the block number from the
range before execute_block runs, so the range is already past that
block whatever the outcome: on a non-empty range next returns the
execute_block item (Ok or Err alike) together with the job advanced by
one, and the following call attempts the next block number — the
failed block is never retried — whereas BackfillJob returns its range
unchanged whenever a batch fails. -/
theorem c10_single_advances_past_failure (j : SingleBlockBackfillJob σ ρ β ε)
    (h : j.lo ≤ j.hi) :
    SingleBlockBackfillJob.next j =
      (some (execute_block j j.lo), { j with lo := j.lo + 1 }) ∧
    (j.lo + 1 ≤ j.hi →
      ((SingleBlockBackfillJob.next j).2).next =
        (some (execute_block j (j.lo + 1)), { j with lo := j.lo + 2 })) ∧
    (∀ (bj : BackfillJob σ ρ β ε) (e : BErr ε) (bj1 : BackfillJob σ ρ β ε),
      execute_range bj = some (.error e, bj1) → bj1 = bj) := by
  refine ⟨?_, ?_, fun bj e bj1 hh => execute_range_err bj e bj1 hh⟩
  · simp only [SingleBlockBackfillJob.next, if_neg (by omega : ¬ j.hi < j.lo)]
  · intro h2
    simp only [SingleBlockBackfillJob.next, if_neg (by omega : ¬ j.hi < j.lo)]
    rw [if_neg (show ¬ j.hi < j.lo + 1 from by omega)]
    rfl

/-- C10 witness: the failing-fetch instance on the range 1..=2: next
yields the error for block 1 yet the next call attempts block 2. -/
theorem c10_single_advances_past_failure_witness :
    ({ env := envF, lo := 1, hi := 2 } : SingleBlockBackfillJob Nat Nat Nat Nat).lo ≤ 2 ∧
    (SingleBlockBackfillJob.next
        ({ env := envF, lo := 1, hi := 2 } : SingleBlockBackfillJob Nat Nat Nat Nat) =
      (some (execute_block ({ env := envF, lo := 1, hi := 2 } :
          SingleBlockBackfillJob Nat Nat Nat Nat) 1),
       { env := envF, lo := 2, hi := 2 }) ∧
    ((1 : Nat) + 1 ≤ 2 →
      ((SingleBlockBackfillJob.next ({ env := envF, lo := 1, hi := 2 } :
          SingleBlockBackfillJob Nat Nat Nat Nat)).2).next =
        (some (execute_block ({ env := envF, lo := 1, hi := 2 } :
            SingleBlockBackfillJob Nat Nat Nat Nat) 2),
         { env := envF, lo := 3, hi := 2 })) ∧
    (∀ (bj : BackfillJob Nat Nat Nat Nat) (e : BErr Nat) (bj1 : BackfillJob Nat Nat Nat Nat),
      execute_range bj = some (.error e, bj1) → bj1 = bj)) :=
  ⟨by decide,
   c10_single_advances_past_failure
     ({ env := envF, lo := 1, hi := 2 } : SingleBlockBackfillJob Nat Nat Nat Nat)
     (by decide)⟩
